import Mathlib

/-!
Verification development for the GenZ-Mock platform sources.

The JavaScript sources are shallowly embedded here:
strings are modelled as `List Char`, JavaScript objects as structures,
`fetch`/network effects as explicit `Except`-valued inputs, and the
regular expressions used by the extractor are compiled by hand into
deterministic character-list scanners following the backtracking
behaviour of the concrete patterns in the source.
-/

namespace GenZMock

/-! ## JavaScript string primitives -/

/-- The characters matched by the JavaScript regex class `\s`
(restricted to the code points that can occur in this code base). -/
def jsWs (c : Char) : Bool :=
  c = ' ' || c = '\t' || c = '\n' || c = '\r' ||
  c = '\x0b' || c = '\x0c' || c = ' ' || c = '﻿'

/-- JavaScript `String.prototype.trim` on a character list. -/
def jsTrim (s : List Char) : List Char :=
  ((s.dropWhile jsWs).reverse.dropWhile jsWs).reverse

/-- JavaScript `text.split('\n')` on a character list. -/
def splitNl : List Char → List (List Char)
  | [] => [[]]
  | c :: rest =>
    if c = '\n' then [] :: splitNl rest
    else
      match splitNl rest with
      | [] => [[c]]
      | l :: ls => (c :: l) :: ls

/-- `parseInt` on a run of decimal digits. -/
def parseIntDigits (ds : List Char) : Nat :=
  ds.foldl (fun acc c => 10 * acc + (c.toNat - '0'.toNat)) 0

/-- Case-insensitive literal match of `kw` at the head of `cs`;
returns the rest of the input after the keyword on success. -/
def matchKw : List Char → List Char → Option (List Char)
  | [], rest => some rest
  | _ :: _, [] => none
  | k :: ks, c :: rest => if c.toLower = k.toLower then matchKw ks rest else none

/-! ## FirebaseSync: access keys (part_001, `FirebaseSync.validateKey`) -/

/-- A stored access key entry.  `is_active = none` models a record whose
`is_active` field is absent (or `null`); JavaScript `!== false` is true
for such values. -/
structure AccessKey where
  key : String
  is_active : Option Bool
  deriving DecidableEq, Repr

/-- `FirebaseSync.validateKey`:
`keys.find(k => k.key === keyCode && k.is_active !== false)` followed by
`key !== undefined`. -/
def validateKey (keys : List AccessKey) (keyCode : String) : Bool :=
  (keys.find? (fun k => k.key == keyCode && k.is_active != some false)).isSome

/-! ## FirebaseSync: leaderboard (part_001, `FirebaseSync.getTestLeaderboard`) -/

/-- A stored per-test result record (the fields inspected by the
leaderboard comparator). -/
structure TResult where
  correct : Nat
  timeTaken : Nat
  deriving DecidableEq, Repr

/-- The total preorder induced by the comparator
`(a, b) => b.correct !== a.correct ? b.correct - a.correct : a.timeTaken - b.timeTaken`:
`a` is placed no later than `b`. -/
def lbBefore (a b : TResult) : Prop :=
  b.correct < a.correct ∨ (a.correct = b.correct ∧ a.timeTaken ≤ b.timeTaken)

instance : DecidableRel lbBefore := fun a b => by
  unfold lbBefore; infer_instance

instance : IsTotal TResult lbBefore where
  total a b := by unfold lbBefore; omega

instance : IsTrans TResult lbBefore where
  trans a b c := by unfold lbBefore; omega

/-- The sort step of `getTestLeaderboard` (a stable comparison sort, as
`Array.prototype.sort` is). -/
def sortResults (rs : List TResult) : List TResult :=
  List.insertionSort lbBefore rs

/-- `results.map((r, idx) => ({ ...r, rank: idx + 1 }))`, with the
entry kept as the first component and the attached rank second. -/
def addRanks : Nat → List TResult → List (TResult × Nat)
  | _, [] => []
  | i, r :: rest => (r, i + 1) :: addRanks (i + 1) rest

/-- `FirebaseSync.getTestLeaderboard` applied to the stored result
records of one test. -/
def getTestLeaderboard (rs : List TResult) : List (TResult × Nat) :=
  addRanks 0 (sortResults rs)

/-! ## AdminDataManager (part_003 / part_002, `deleteQuestion`)

Only the fields read or written by `deleteQuestion`, `updateTest` and
`getQuestionsByTestId` are modelled; all other stored fields of the
records are carried through those operations untouched in the source. -/

/-- One entry of `this.questions` in `AdminDataManager`. -/
structure AQuestion where
  id : String
  test_id : String
  question_number : Nat
  deriving DecidableEq, Repr

/-- One entry of `this.mockTests` in `AdminDataManager`. -/
structure ATest where
  id : String
  total_questions : Nat
  deriving DecidableEq, Repr

/-- The persisted state of `AdminDataManager`. -/
structure AdminState where
  mockTests : List ATest
  questions : List AQuestion
  deriving DecidableEq, Repr

/-- `this.questions.splice(index, 1)` at
`index = findIndex(q => q.id === questionId)`: removes the first
question whose id matches. -/
def removeQuestion : List AQuestion → String → List AQuestion
  | [], _ => []
  | q :: rest, qid => if q.id == qid then rest else q :: removeQuestion rest qid

/-- The renumbering loop
`remainingQuestions.forEach((q, i) => { q.question_number = i + 1 })`:
since `remainingQuestions` aliases the objects stored in
`this.questions`, the net effect on the stored list is that each
question of the test receives its 1-based position among the stored
questions of that test, and questions of other tests are untouched. -/
def renumberTest (tid : String) : Nat → List AQuestion → List AQuestion
  | _, [] => []
  | n, q :: rest =>
    if q.test_id == tid then
      { q with question_number := n + 1 } :: renumberTest tid (n + 1) rest
    else q :: renumberTest tid n rest

/-- `AdminDataManager.updateTest(id, { total_questions: n })`: replaces
the first test whose id matches, leaving the state unchanged when no
test matches. -/
def updateTestTotal (id : String) (n : Nat) : List ATest → List ATest
  | [] => []
  | t :: rest =>
    if t.id == id then { t with total_questions := n } :: rest
    else t :: updateTestTotal id n rest

/-- `AdminDataManager.deleteQuestion(questionId)` (the Firebase
mirroring call is an external network effect and has no bearing on the
returned state). -/
def deleteQuestion (st : AdminState) (questionId : String) : AdminState × Bool :=
  match st.questions.find? (fun q => q.id == questionId) with
  | none => (st, false)
  | some question =>
    let testId := question.test_id
    let afterSplice := removeQuestion st.questions questionId
    let remaining := afterSplice.filter (fun q => q.test_id == testId)
    let renumbered := renumberTest testId 0 afterSplice
    let tests := updateTestTotal testId remaining.length st.mockTests
    (⟨tests, renumbered⟩, true)

/-! ## PDFQuestionExtractor (src/js/pdf-extractor.js lines 70-307)

The regular expressions of the extractor are compiled by hand into
deterministic scanners; each definition's comment names the pattern it
implements and the backtracking analysis is noted where it matters. -/

/-- The class `[a-dA-D]`. -/
def isOptLetter (c : Char) : Bool :=
  c = 'a' || c = 'b' || c = 'c' || c = 'd' ||
  c = 'A' || c = 'B' || c = 'C' || c = 'D'

/-- The class `[\)\].\s]`. -/
def isOptSep (c : Char) : Bool :=
  c = ')' || c = ']' || c = '.' || jsWs c

/-- Match of `([a-dA-D])[\)\].\s]+(.+)` at the head of the input.
The separator class is matched greedily; when nothing is left for
`(.+)` the engine backtracks exactly one separator character into the
capture (the class characters are all matched by `.`). -/
def optMatchAfterBracket (cs : List Char) : Option (Char × List Char) :=
  match cs with
  | [] => none
  | c :: rest =>
    if isOptLetter c then
      let sep := rest.takeWhile isOptSep
      let after := rest.dropWhile isOptSep
      match sep with
      | [] => none
      | _ :: _ =>
        match after with
        | _ :: _ => some (c.toLower, after)
        | [] => if 2 ≤ sep.length then some (c.toLower, [sep.getLastD ' ']) else none
    else none

/-- `trimmed.match(/^[\(\[]?([a-dA-D])[\)\].\s]+(.+)/)`: the optional
leading bracket is consumed when present (a bracket can never satisfy
`[a-dA-D]`, so no backtracking over it succeeds).  Returns the captured
letter already lower-cased together with the second capture. -/
def optMatch (cs : List Char) : Option (Char × List Char) :=
  match cs with
  | '(' :: rest => optMatchAfterBracket rest
  | '[' :: rest => optMatchAfterBracket rest
  | _ => optMatchAfterBracket cs

/-- Continuation `[:\s]*[\(\[]?([a-dA-D])` of the answer regexes after a
matched keyword; the optional closing bracket `[\)\]]?` never affects
success or the capture.  Returns the captured letter lower-cased. -/
def ansTail (cs : List Char) : Option Char :=
  let cs1 := cs.dropWhile (fun c => c = ':' || jsWs c)
  let cs2 := match cs1 with
    | '(' :: r => r
    | '[' :: r => r
    | _ => cs1
  match cs2 with
  | c :: _ => if isOptLetter c then some c.toLower else none
  | [] => none

/-- One unanchored match attempt at the current position: the keyword
alternatives are tried in the order they appear in the pattern. -/
def ansKwTry (kws : List (List Char)) (cs : List Char) : Option Char :=
  kws.findSome? (fun kw => (matchKw kw cs).bind ansTail)

/-- `trimmed.match(/(?:KW1|KW2|...)[:\s]*[\(\[]?([a-dA-D])[\)\]]?/i)`:
scans left to right for the first position where a keyword alternative
followed by the tail matches. -/
def ansScan (kws : List (List Char)) : List Char → Option Char
  | [] => none
  | c :: rest =>
    match ansKwTry kws (c :: rest) with
    | some l => some l
    | none => ansScan kws rest

/-- Keywords of the answer regex in `_parseQuestionContent`
(line 234): `Answer|Ans|उत्तर|Correct`. -/
def ansKwsContent : List (List Char) :=
  ["Answer".data, "Ans".data, "उत्तर".data, "Correct".data]

/-- Keywords of the answer regex in `_extractLineByLine`
(line 184): `Answer|Ans|उत्तर`. -/
def ansKwsLines : List (List Char) :=
  ["Answer".data, "Ans".data, "उत्तर".data]

/-- Keywords of the explanation regex (line 241). -/
def expKws : List (List Char) :=
  ["Explanation".data, "व्याख्या".data, "Hint".data, "Solution".data]

/-- `/^(?:Explanation|व्याख्या|Hint|Solution)[:\s]*/i` as a test plus the
`replace(..., '')` used on success: the anchored match (keyword and the
greedy `[:\s]*` run) is removed. -/
def expMatch (cs : List Char) : Option (List Char) :=
  expKws.findSome? (fun kw =>
    (matchKw kw cs).map (fun r => r.dropWhile (fun c => c = ':' || jsWs c)))

/-- The draft question object built by the extractor. -/
structure Quest where
  number : Nat
  question : List Char
  optA : List Char
  optB : List Char
  optC : List Char
  optD : List Char
  answer : List Char
  explanation : List Char
  deriving DecidableEq, Repr

/-- `q.options[letter] = value` for a lower-case letter `a`-`d`. -/
def setOpt (q : Quest) (letter : Char) (v : List Char) : Quest :=
  if letter = 'a' then { q with optA := v }
  else if letter = 'b' then { q with optB := v }
  else if letter = 'c' then { q with optC := v }
  else { q with optD := v }

/-- The fresh draft object of `_parseQuestionContent` (lines 209-215). -/
def pqcInit (number : Nat) : Quest :=
  ⟨number, [], [], [], [], [], [], []⟩

/-- One iteration of the per-line loop of `_parseQuestionContent`
(lines 221-253); the second state component is the `inQuestion` flag. -/
def pqcStep (st : Quest × Bool) (line : List Char) : Quest × Bool :=
  let q := st.1
  let inQuestion := st.2
  let t := jsTrim line
  if t = [] then st
  else
    match optMatch t with
    | some (l, txt) => (setOpt q l (jsTrim txt), false)
    | none =>
      match ansScan ansKwsContent t with
      | some l => ({ q with answer := [l] }, inQuestion)
      | none =>
        match expMatch t with
        | some e => ({ q with explanation := e }, inQuestion)
        | none =>
          if inQuestion then
            ({ q with question := if q.question = [] then t else q.question ++ ' ' :: t },
             inQuestion)
          else if q.answer ≠ [] then
            ({ q with explanation :=
                 if q.explanation = [] then t else q.explanation ++ ' ' :: t },
             inQuestion)
          else st

/-- The accumulation phase of `_parseQuestionContent`: the draft object
after the per-line loop, before the final validity check. -/
def pqcCore (number : Nat) (content : List Char) : Quest :=
  ((splitNl content).foldl pqcStep (pqcInit number, true)).1

/-- `PDFQuestionExtractor._parseQuestionContent` (lines 208-261):
returns the draft only if `q.question.length > 5 && (q.options.a || q.options.b)`. -/
def parseQuestionContent (number : Nat) (content : List Char) : Option Quest :=
  let q := pqcCore number content
  if 5 < q.question.length ∧ (q.optA ≠ [] ∨ q.optB ≠ []) then some q else none

/-- One match attempt of `/(?:^|\n)\s*(\d+)\s*[.\)]\s*/` at the current
position (`atStart` marks position 0, where the `^` alternative
applies; elsewhere the match must begin with a literal newline).  All
quantifiers reduce to maximal runs: backtracking out of a `\s*` or
`\d+` run can never reach the character class that follows.  Returns
the captured digits and the input after the match. -/
def numAnchorMatch (atStart : Bool) (cs : List Char) : Option (List Char × List Char) :=
  let body? : Option (List Char) :=
    if atStart then some cs
    else
      match cs with
      | '\n' :: rest => some rest
      | _ => none
  match body? with
  | none => none
  | some cs1 =>
    let cs2 := cs1.dropWhile jsWs
    let digits := cs2.takeWhile Char.isDigit
    match digits with
    | [] => none
    | _ :: _ =>
      let cs3 := (cs2.dropWhile Char.isDigit).dropWhile jsWs
      match cs3 with
      | c :: rest =>
        if c = '.' || c = ')' then some (digits, rest.dropWhile jsWs) else none
      | [] => none

/-- `text.split(/(?:^|\n)\s*(\d+)\s*[.\)]\s*/)`: left-to-right scan for
non-overlapping matches; each match contributes the preceding chunk and
the captured digits.  Every step consumes at least one character, so
the fuel `text.length + 1` is never exhausted. -/
def splitScanNum : Nat → List Char → Bool → List Char → List (List Char)
  | 0, cs, _, acc => [acc.reverse ++ cs]
  | fuel + 1, cs, atStart, acc =>
    match cs with
    | [] => [acc.reverse]
    | c :: rest =>
      match numAnchorMatch atStart (c :: rest) with
      | some (digits, after) => acc.reverse :: digits :: splitScanNum fuel after false []
      | none => splitScanNum fuel rest false (c :: acc)

/-- The parts array produced by the number-pattern split (line 101). -/
def splitByNumPat (text : List Char) : List (List Char) :=
  splitScanNum (text.length + 1) text true []

/-- One match attempt of `/Q\.?\s*(\d+)\s*[.\)]/i` at the current
position.  The optional dot is consumed when present (giving it back
can never help: the following `\s*\d+` then starts at the dot). -/
def qPatMatch (cs : List Char) : Option (List Char × List Char) :=
  match cs with
  | [] => none
  | c :: rest =>
    if c = 'Q' || c = 'q' then
      let cs1 := match rest with
        | '.' :: r => r
        | _ => rest
      let cs2 := cs1.dropWhile jsWs
      let digits := cs2.takeWhile Char.isDigit
      match digits with
      | [] => none
      | _ :: _ =>
        let cs3 := (cs2.dropWhile Char.isDigit).dropWhile jsWs
        match cs3 with
        | d :: after => if d = '.' || d = ')' then some (digits, after) else none
        | [] => none
    else none

/-- `text.split(/Q\.?\s*(\d+)\s*[.\)]/i)`, scanning as above. -/
def splitScanQ : Nat → List Char → List Char → List (List Char)
  | 0, cs, acc => [acc.reverse ++ cs]
  | fuel + 1, cs, acc =>
    match cs with
    | [] => [acc.reverse]
    | c :: rest =>
      match qPatMatch (c :: rest) with
      | some (digits, after) => acc.reverse :: digits :: splitScanQ fuel after []
      | none => splitScanQ fuel rest (c :: acc)

/-- The parts array produced by the Q-pattern split (line 125). -/
def splitByQPat (text : List Char) : List (List Char) :=
  splitScanQ (text.length + 1) text []

/-- The index pairing of the extraction loops (lines 105-113 and
129-137): `parts[i]` and `parts[i+1] || ''` for `i = 1, 3, 5, ...`. -/
def spanPairs : List (List Char) → List (List Char × List Char)
  | [] => []
  | [num] => [(num, [])]
  | num :: content :: rest => (num, content) :: spanPairs rest

/-- The (question number, content span) pairs read off a parts array. -/
def questionSpans (parts : List (List Char)) : List (List Char × List Char) :=
  match parts with
  | [] => []
  | _ :: rest => spanPairs rest

/-- The body of both split-strategy loops: a span is processed only
when `content.length > 10`, and `_parseQuestionContent` may still
reject it. -/
def spanToQuest (p : List Char × List Char) : Option Quest :=
  if 10 < p.2.length then parseQuestionContent (parseIntDigits p.1) p.2 else none

/-- `PDFQuestionExtractor._extractWithNumberPattern` (lines 97-116). -/
def extractWithNumberPattern (text : List Char) : List Quest :=
  (questionSpans (splitByNumPat text)).filterMap spanToQuest

/-- `PDFQuestionExtractor._extractWithQPattern` (lines 121-140). -/
def extractWithQPattern (text : List Char) : List Quest :=
  (questionSpans (splitByQPat text)).filterMap spanToQuest

/-- `trimmed.match(/^(\d+)\s*[.\)]\s*(.+)/)`: on a trimmed line the
trailing `(.+)` capture equals the rest of the line after the greedy
whitespace run, and the match fails when that rest is empty. -/
def numLineMatch (t : List Char) : Option (List Char × List Char) :=
  let digits := t.takeWhile Char.isDigit
  match digits with
  | [] => none
  | _ :: _ =>
    let r1 := (t.dropWhile Char.isDigit).dropWhile jsWs
    match r1 with
    | c :: rest =>
      if c = '.' || c = ')' then
        match rest.dropWhile jsWs with
        | [] => none
        | body => some (digits, body)
      else none
    | [] => none

/-- The loop state of `_extractLineByLine`. -/
structure LblState where
  cur : Option Quest
  qNumber : Nat
  acc : List Quest
  deriving Repr

/-- `if (currentQ && currentQ.question.length > 10) questions.push(currentQ)`. -/
def lblPush (cur : Option Quest) (acc : List Quest) : List Quest :=
  match cur with
  | some q => if 10 < q.question.length then acc ++ [q] else acc
  | none => acc

/-- One iteration of the per-line loop of `_extractLineByLine`
(lines 152-195).  A line whose leading number is not exactly
`qNumber + 1` falls through to the option/answer/continuation
classification. -/
def lblStep (st : LblState) (line : List Char) : LblState :=
  let t := jsTrim line
  if t = [] then st
  else
    let accepted? : Option (List Char × List Char) :=
      match numLineMatch t with
      | some (digits, body) =>
        if parseIntDigits digits = st.qNumber + 1 then some (digits, body) else none
      | none => none
    match accepted? with
    | some (digits, body) =>
      { cur := some { pqcInit (parseIntDigits digits) with question := body }
        qNumber := parseIntDigits digits
        acc := lblPush st.cur st.acc }
    | none =>
      match st.cur with
      | none => st
      | some q =>
        match optMatch t with
        | some (l, txt) => { st with cur := some (setOpt q l (jsTrim txt)) }
        | none =>
          match ansScan ansKwsLines t with
          | some l => { st with cur := some { q with answer := [l] } }
          | none =>
            if q.optA = [] ∧ 3 < t.length then
              { st with cur := some { q with question := q.question ++ ' ' :: t } }
            else st

/-- `PDFQuestionExtractor._extractLineByLine` (lines 145-203). -/
def extractLineByLine (text : List Char) : List Quest :=
  let final := (splitNl text).foldl lblStep ⟨none, 0, []⟩
  lblPush final.cur final.acc

/-- `PDFQuestionExtractor.parseQuestions` (lines 70-92): the strategy
chain, each later strategy tried only on an empty earlier result. -/
def parseQuestions (text : List Char) : List Quest :=
  let qs1 := extractWithNumberPattern text
  if qs1.length = 0 then
    let qs2 := extractWithQPattern text
    if qs2.length = 0 then extractLineByLine text else qs2
  else qs1

/-! ## Schema normalizer time limits (lines 273 and 750 / 1081)

`Math.ceil(n * 1.2)` and `Math.ceil(n * 1.5)` are modelled in exact
rational arithmetic as `⌈6n/5⌉` and `⌈3n/2⌉` on naturals. -/

/-- The `time_limit_minutes` of `PDFQuestionExtractor.toJSON`:
`Math.max(30, Math.ceil(this.questions.length * 1.2))`. -/
def timeLimitMinutesToJSON (questions : List Quest) : Nat :=
  max 30 ((6 * questions.length + 4) / 5)

/-- The `time_limit_minutes` of `AIQuestionExtractor.toImportFormat`
(both copies): `Math.ceil(questions.length * 1.5)` - no floor. -/
def timeLimitMinutesImport {α : Type} (questions : List α) : Nat :=
  (3 * questions.length + 1) / 2

/-! ## AIQuestionExtractor.parseJsonResponse (lines 972-1008)

`JSON.parse` is a host primitive; it enters the model as an abstract
`parse : List Char → Option JVal` argument (`none` models a thrown
`SyntaxError`).  The cleanup pipeline that the source applies before
parsing is modelled exactly. -/

/-- JSON values as produced by `JSON.parse`. -/
inductive JVal where
  | jnull
  | jbool (b : Bool)
  | jnum (n : Int)
  | jstr (s : String)
  | jarr (xs : List JVal)
  | jobj (fields : List (String × JVal))

/-- `text.indexOf(c)` on a character list. -/
def firstIdx (c : Char) : List Char → Option Nat
  | [] => none
  | x :: rest => if x = c then some 0 else (firstIdx c rest).map (· + 1)

/-- `text.lastIndexOf(c)` on a character list. -/
def lastIdx (c : Char) (cs : List Char) : Option Nat :=
  (firstIdx c cs.reverse).map (fun i => cs.length - 1 - i)

/-- The bracket-window step of `parseJsonResponse` (lines 977-982):
when a `[` occurs before the last `]`, keep only
`text.substring(jsonStart, jsonEnd + 1)`. -/
def bracketWindow (t : List Char) : List Char :=
  match firstIdx '[' t, lastIdx ']' t with
  | some i, some j => if i < j then (t.drop i).take (j + 1 - i) else t
  | _, _ => t

/-- Global removal of `tok` (case-insensitive) followed by a greedy
`\s*` run, scanning left to right (`text.replace(/TOK\s*&#47;gi, '')`). -/
def stripTok (tok : List Char) : Nat → List Char → List Char
  | 0, cs => cs
  | fuel + 1, cs =>
    match cs with
    | [] => []
    | c :: rest =>
      match matchKw tok (c :: rest) with
      | some after => stripTok tok fuel (after.dropWhile jsWs)
      | none => c :: stripTok tok fuel rest

/-- The full cleanup pipeline of `parseJsonResponse`: trim, bracket
window, strip ```` ```json ```` fences, strip bare ```` ``` ```` fences,
trim. -/
def cleanupReply (content : List Char) : List Char :=
  let t := bracketWindow (jsTrim content)
  let t := stripTok ("```json".data) (t.length + 1) t
  let t := stripTok ("```".data) (t.length + 1) t
  jsTrim t

/-- `parsed.questions` lookup on an object (a `JSON.parse` result has
no duplicate keys). -/
def lookupQuestions (fields : List (String × JVal)) : Option JVal :=
  (fields.find? (fun f => f.1 == "questions")).map (fun f => f.2)

/-- `AIQuestionExtractor.parseJsonResponse` (lines 972-1008): cleanup,
parse, then shape dispatch.  Every failure - parse error, a `null`
value (whose `.questions` access throws), or a non-conforming shape -
is caught and re-thrown as the single hard failure message. -/
def parseJsonResponse (parse : List Char → Option JVal) (content : List Char) :
    Except String (List JVal) :=
  match parse (cleanupReply content) with
  | none => .error "Failed to parse AI response as JSON"
  | some v =>
    match v with
    | .jobj fields =>
      match lookupQuestions fields with
      | some (.jarr qs) => .ok qs
      | _ => .error "Failed to parse AI response as JSON"
    | .jarr qs => .ok qs
    | _ => .error "Failed to parse AI response as JSON"

/-! ## Error-handling wrappers (C10)

Each wrapper is modelled with its network/file effect supplied as an
explicit `Except`-valued outcome; an `Except.error` input models the
underlying operation throwing (or the fetch rejecting), and an
`Except.error` result models the wrapper itself throwing/rejecting to
its caller. -/

/-- The slice of a `fetch` response read by the wrappers. -/
structure FetchResp where
  ok : Bool
  deriving DecidableEq, Repr

/-- `FirebaseSync.saveTestResult` (part_001 lines 190-221): the
`try/catch` returns the built result object on `response.ok`, and
`null` both on a non-ok response and from the `catch` branch.  The
built record is abstracted as `result`. -/
def saveTestResultM (outcome : Except String FetchResp) (result : String) :
    Option String :=
  match outcome with
  | .error _ => none
  | .ok resp => if resp.ok then some result else none

/-- The payload resolved by `AIQuestionExtractor.extractTextFromPDF`. -/
structure TextResult where
  success : Bool
  text : String
  deriving DecidableEq, Repr

/-- `AIQuestionExtractor.extractTextFromPDF` (lines 838-874): on
success it resolves `{ success: true, text }`; on any failure of the
file read or pdf.js it calls `reject(error)` - the failure is passed
through to the caller, not converted to a default. -/
def extractTextFromPDFM (outcome : Except String String) : Except String TextResult :=
  match outcome with
  | .error e => .error e
  | .ok txt => .ok ⟨true, txt⟩

/-- The structured result of the LLM extraction path. -/
structure AIResult where
  success : Bool
  error : String
  questions : List JVal

/-- `AIQuestionExtractor.extractQuestionsFromText` (lines 877-969,
failure paths at 959-968): throws before the `try` when no API key is
configured; inside the `try`, any failure of the network call or of
reply parsing (`outcome = .error`) is caught and converted to
`{ success: false, error, questions: [] }`, as is an empty parsed
question list. -/
def extractQuestionsFromTextM (hasApiKey : Bool)
    (outcome : Except String (List JVal)) : Except String AIResult :=
  if !hasApiKey then
    .error "Groq API key not configured. Please add your API key in Settings."
  else
    match outcome with
    | .error e => .ok ⟨false, e, []⟩
    | .ok qs =>
      if qs.isEmpty then .ok ⟨false, "No questions found in response", []⟩
      else .ok ⟨true, "", qs⟩

/-! ## Theorems -/

/-- C2: for every stored key collection and every queried string,
`validateKey` returns true exactly when some stored entry's code equals
the queried string character-for-character and that entry's active
flag is not explicitly `false`; in particular the string `"genz1"`
does not validate when the stored code is `"GenZ1"`. -/
theorem validateKey_exact_and_active :
    (∀ (keys : List AccessKey) (code : String),
      validateKey keys code = true ↔
        ∃ k ∈ keys, k.key = code ∧ k.is_active ≠ some false)
    ∧ validateKey [⟨"GenZ1", some true⟩] "genz1" = false := by
  refine ⟨fun keys code => ?_, by decide⟩
  unfold validateKey
  rw [List.find?_isSome]
  simp [Bool.and_eq_true, beq_iff_eq, bne_iff_ne]

/-- C9 counterexample: the AI-path normalizer `toImportFormat`
produces `time_limit_minutes = 0` for an empty question list, below
the floor of 30 that the regex-path normalizer `toJSON` enforces, so
the computed time limit is not clamped to a minimum floor on every
normalizer path. -/
theorem timeLimit_floor_cex :
    timeLimitMinutesImport ([] : List JVal) = 0
    ∧ timeLimitMinutesToJSON [] = 30
    ∧ (0 : Nat) < 30 := by
  refine ⟨rfl, by decide, by decide⟩

/-- C9 amended: the regex-path normalizer `toJSON` clamps the default
time limit to the floor 30 for every question list, but the AI-path
normalizer `toImportFormat` applies no floor (its value for an empty
list is below 30). -/
theorem timeLimit_floor_amended :
    (∀ qs : List Quest, 30 ≤ timeLimitMinutesToJSON qs)
    ∧ timeLimitMinutesImport ([] : List JVal) < 30 := by
  refine ⟨fun qs => ?_, by decide⟩
  unfold timeLimitMinutesToJSON
  exact Nat.le_max_left _ _

/-- C10 counterexample: `extractTextFromPDF` is an I/O wrapper that is
not the LLM extraction path, yet it passes the underlying failure
through to its caller (it rejects) instead of catching it and
returning a safe default value. -/
theorem extractTextFromPDF_propagates_cex :
    extractTextFromPDFM (.error "read failed") = .error "read failed" := rfl

/-- C10 amended: the CRUD/sync wrappers catch thrown failures and
return a safe default (`saveTestResult` returns null), and the LLM
extraction call converts failures inside its body into a structured
`{success: false, error}` result; but the PDF text-reading wrapper
`extractTextFromPDF` propagates (rejects with) the underlying failure
to its caller rather than returning a default. -/
theorem errorHandling_amended :
    (∀ (e : String) (r : String), saveTestResultM (.error e) r = none)
    ∧ (∀ e : String, extractQuestionsFromTextM true (.error e) = .ok ⟨false, e, []⟩)
    ∧ (∀ e : String, extractTextFromPDFM (.error e) = .error e) :=
  ⟨fun _ _ => rfl, fun _ => rfl, fun _ => rfl⟩

/-- C5 counterexample: a span whose accumulated question text is
non-empty and which has populated options (only `c` and `d`) is still
rejected by `_parseQuestionContent`, because the source requires
`q.question.length > 5 && (q.options.a || q.options.b)`; a second span
with a non-empty question of five or fewer characters and option `a`
populated is rejected as well. -/
theorem parseQuestionContent_validity_cex :
    parseQuestionContent 1 "Which year did X happen\nc) 1947\nd) 1950\nAnswer: c".data = none
    ∧ (pqcCore 1 "Which year did X happen\nc) 1947\nd) 1950\nAnswer: c".data).question ≠ []
    ∧ (pqcCore 1 "Which year did X happen\nc) 1947\nd) 1950\nAnswer: c".data).optC ≠ []
    ∧ parseQuestionContent 2 "Why?\na) because\nb) since".data = none
    ∧ (pqcCore 2 "Why?\na) because\nb) since".data).question ≠ []
    ∧ (pqcCore 2 "Why?\na) because\nb) since".data).optA ≠ [] := by
  refine ⟨by decide, by decide, by decide, by decide, by decide, by decide⟩

/-- C5 amended: `_parseQuestionContent` returns a structured draft
question exactly when the accumulated question text is longer than
five characters and at least one of options `a` or `b` is populated,
and returns null otherwise. -/
theorem parseQuestionContent_validity_amended (number : Nat) (content : List Char) :
    (parseQuestionContent number content).isSome ↔
      (5 < (pqcCore number content).question.length
        ∧ ((pqcCore number content).optA ≠ [] ∨ (pqcCore number content).optB ≠ [])) := by
  unfold parseQuestionContent
  by_cases h : 5 < (pqcCore number content).question.length
      ∧ ((pqcCore number content).optA ≠ [] ∨ (pqcCore number content).optB ≠ [])
  · simp [h]
  · simp [h]

/-- C4: `parseQuestions` tries the numeric-prefix strategy first, the
Q-prefix strategy only if the first produced zero questions, and the
strict sequential line-scan only if both produced zero; within the
split strategies a content span of at most 10 characters is discarded;
the first strategy yielding at least one question determines the
output, and if all three yield zero the caller receives an empty
list. -/
theorem parseQuestions_strategy_chain (text : List Char) :
    (extractWithNumberPattern text ≠ [] →
      parseQuestions text = extractWithNumberPattern text)
    ∧ (extractWithNumberPattern text = [] → extractWithQPattern text ≠ [] →
      parseQuestions text = extractWithQPattern text)
    ∧ (extractWithNumberPattern text = [] → extractWithQPattern text = [] →
      parseQuestions text = extractLineByLine text)
    ∧ (extractWithNumberPattern text = [] → extractWithQPattern text = [] →
        extractLineByLine text = [] → parseQuestions text = [])
    ∧ (∀ (numStr content : List Char), content.length ≤ 10 →
        spanToQuest (numStr, content) = none) := by
  refine ⟨?_, ?_, ?_, ?_, ?_⟩
  · intro h1
    unfold parseQuestions
    simp [List.length_eq_zero, h1]
  · intro h1 h2
    unfold parseQuestions
    simp [List.length_eq_zero, h1, h2]
  · intro h1 h2
    unfold parseQuestions
    simp [List.length_eq_zero, h1, h2]
  · intro h1 h2 h3
    unfold parseQuestions
    simp [List.length_eq_zero, h1, h2, h3]
  · intro numStr content h
    unfold spanToQuest
    dsimp only
    rw [if_neg]
    omega

/-- C4 witness: the chain and the discard rule at concrete inputs. -/
theorem parseQuestions_strategy_chain_witness :
    parseQuestions "1. What is the capital?\na) Delhi\nb) Mumbai".data
      = extractWithNumberPattern "1. What is the capital?\na) Delhi\nb) Mumbai".data
    ∧ spanToQuest ("1".data, "too short".data) = none :=
  ⟨(parseQuestions_strategy_chain _).1 (by decide),
   (parseQuestions_strategy_chain "x".data).2.2.2.2 "1".data "too short".data (by decide)⟩

/-- The rank attachment does not change the entries themselves. -/
theorem addRanks_map_fst (l : List TResult) :
    ∀ i, (addRanks i l).map Prod.fst = l := by
  induction l with
  | nil => intro i; rfl
  | cons r rest ih => intro i; simp [addRanks, ih]

/-- The rank attached at position `i` (counting from base `k`). -/
theorem addRanks_get_snd (l : List TResult) :
    ∀ (k i : Nat) (h : i < (addRanks k l).length),
      ((addRanks k l).get ⟨i, h⟩).2 = k + i + 1 := by
  induction l with
  | nil => intro k i h; simp [addRanks] at h
  | cons r rest ih =>
    intro k i h
    cases i with
    | zero => rfl
    | succ n =>
      have hn : n < (addRanks (k + 1) rest).length := by
        simpa [addRanks] using h
      have := ih (k + 1) n hn
      simpa [addRanks, List.get, Nat.add_assoc, Nat.add_comm, Nat.add_left_comm] using this

/-- C3: `getTestLeaderboard` returns the stored results sorted by
correct count descending with ties broken by elapsed time ascending,
assigns each entry a rank equal to its 1-based position in that order,
and on the result set `[{correct:8,time:120},{correct:9,time:200},
{correct:9,time:150}]` returns correct=9/time=150, correct=9/time=200,
correct=8/time=120 with ranks 1, 2, 3. -/
theorem getTestLeaderboard_order (rs : List TResult) (i : Nat)
    (h : i < (getTestLeaderboard rs).length) :
    ((getTestLeaderboard rs).map Prod.fst).Perm rs
    ∧ List.Pairwise (fun a b : TResult × Nat => lbBefore a.1 b.1) (getTestLeaderboard rs)
    ∧ ((getTestLeaderboard rs).get ⟨i, h⟩).2 = i + 1
    ∧ getTestLeaderboard [⟨8, 120⟩, ⟨9, 200⟩, ⟨9, 150⟩]
        = [(⟨9, 150⟩, 1), (⟨9, 200⟩, 2), (⟨8, 120⟩, 3)] := by
  refine ⟨?_, ?_, ?_, by decide⟩
  · unfold getTestLeaderboard
    rw [addRanks_map_fst]
    exact List.perm_insertionSort lbBefore rs
  · have hs : List.Sorted lbBefore (sortResults rs) :=
      List.sorted_insertionSort lbBefore rs
    unfold getTestLeaderboard
    have hp : List.Pairwise lbBefore ((addRanks 0 (sortResults rs)).map Prod.fst) := by
      rw [addRanks_map_fst]; exact hs
    exact List.pairwise_map.mp hp
  · unfold getTestLeaderboard at h ⊢
    simpa using addRanks_get_snd (sortResults rs) 0 i h

/-- C3 witness: the ordering facts at the spec's concrete result set. -/
theorem getTestLeaderboard_order_witness :
    ((getTestLeaderboard [⟨8, 120⟩, ⟨9, 200⟩, ⟨9, 150⟩]).map Prod.fst).Perm
        [⟨8, 120⟩, ⟨9, 200⟩, ⟨9, 150⟩]
    ∧ List.Pairwise (fun a b : TResult × Nat => lbBefore a.1 b.1)
        (getTestLeaderboard [⟨8, 120⟩, ⟨9, 200⟩, ⟨9, 150⟩])
    ∧ ((getTestLeaderboard [⟨8, 120⟩, ⟨9, 200⟩, ⟨9, 150⟩]).get ⟨0, by decide⟩).2 = 0 + 1
    ∧ getTestLeaderboard [⟨8, 120⟩, ⟨9, 200⟩, ⟨9, 150⟩]
        = [(⟨9, 150⟩, 1), (⟨9, 200⟩, 2), (⟨8, 120⟩, 3)] :=
  getTestLeaderboard_order [⟨8, 120⟩, ⟨9, 200⟩, ⟨9, 150⟩] 0 (by decide)

/-- A line of a content span that `_parseQuestionContent` classifies
as an answer line: non-blank after trimming, not an option match, and
matching the answer regex.  Returns the captured letter. -/
def ansLineLetter (line : List Char) : Option Char :=
  let t := jsTrim line
  if t = [] then none
  else if (optMatch t).isSome then none
  else ansScan ansKwsContent t

/-- Modelled from the claim's words: the letter of the FIRST answer
line of a span. -/
def firstAnsLetter (content : List Char) : Option Char :=
  (splitNl content).findSome? ansLineLetter

/-- The letter of the LAST answer line of a span (as a string field:
empty when the span has no answer line). -/
def lastAnsLetter (content : List Char) : List Char :=
  (splitNl content).foldl
    (fun acc l =>
      match ansLineLetter l with
      | some c => [c]
      | none => acc) []

/-- Writing an option field leaves the answer field unchanged. -/
theorem setOpt_answer (q : Quest) (l : Char) (v : List Char) :
    (setOpt q l v).answer = q.answer := by
  unfold setOpt
  split
  · rfl
  · split
    · rfl
    · split
      · rfl
      · rfl

/-- One loop iteration of `_parseQuestionContent` updates the answer
field exactly according to the answer-line classification of the
line. -/
theorem pqcStep_answer (q : Quest) (inQ : Bool) (line : List Char) :
    (pqcStep (q, inQ) line).1.answer =
      match ansLineLetter line with
      | some c => [c]
      | none => q.answer := by
  unfold pqcStep ansLineLetter
  dsimp only
  by_cases ht : jsTrim line = []
  · simp [ht]
  · rw [if_neg ht, if_neg ht]
    cases hopt : optMatch (jsTrim line) with
    | some p =>
      obtain ⟨l, txt⟩ := p
      simpa using setOpt_answer q l (jsTrim txt)
    | none =>
      dsimp only [Option.isSome]
      cases hans : ansScan ansKwsContent (jsTrim line) with
      | some l => rfl
      | none =>
        cases hexp : expMatch (jsTrim line) with
        | some e => rfl
        | none =>
          cases inQ with
          | true => rfl
          | false =>
            dsimp only
            split
            · rfl
            · split
              · rfl
              · rfl

/-- The answer field after the whole loop is a fold of the per-line
classification over the lines. -/
theorem foldl_pqcStep_answer (lines : List (List Char)) :
    ∀ st : Quest × Bool,
      ((lines.foldl pqcStep st).1).answer =
        lines.foldl
          (fun acc l =>
            match ansLineLetter l with
            | some c => [c]
            | none => acc) st.1.answer := by
  induction lines with
  | nil => intro st; rfl
  | cons l ls ih =>
    intro st
    obtain ⟨q, b⟩ := st
    simp only [List.foldl_cons]
    rw [ih]
    congr 1
    exact pqcStep_answer q b l

/-- C6 counterexample: the span
`"What is the capital of France\na) Paris\nb) London\nAnswer: a\nAnswer: b"`
contains two answer lines; the first one carries the letter `a`, yet
the draft question returned by `_parseQuestionContent` has answer
`"b"` - each answer-line match overwrites the previous one, so the
last occurrence is honored, not the first. -/
theorem answer_first_occurrence_cex :
    firstAnsLetter
        "What is the capital of France\na) Paris\nb) London\nAnswer: a\nAnswer: b".data
      = some 'a'
    ∧ ((splitNl
          "What is the capital of France\na) Paris\nb) London\nAnswer: a\nAnswer: b".data).filterMap
        ansLineLetter).length = 2
    ∧ (parseQuestionContent 1
        "What is the capital of France\na) Paris\nb) London\nAnswer: a\nAnswer: b".data).map
          Quest.answer = some ['b']
    ∧ (['b'] : List Char) ≠ ['a'] := by
  refine ⟨by decide, by decide, by decide, by decide⟩

/-- C6 amended: for every content span, the extracted answer equals
the letter of the LAST line that `_parseQuestionContent` classifies as
an answer line (empty when the span has none); in particular when two
or more answer lines occur, the last occurrence is the one honored. -/
theorem answer_last_occurrence_amended (number : Nat) (content : List Char) :
    (pqcCore number content).answer = lastAnsLetter content := by
  unfold pqcCore lastAnsLetter
  rw [foldl_pqcStep_answer]
  rfl

/-- Renumbering preserves the identity and ownership of every stored
question. -/
theorem renumberTest_map_ids (tid : String) (qs : List AQuestion) :
    ∀ n, (renumberTest tid n qs).map (fun q => (q.id, q.test_id)) =
      qs.map (fun q => (q.id, q.test_id)) := by
  induction qs with
  | nil => intro n; rfl
  | cons q rest ih =>
    intro n
    unfold renumberTest
    split <;> simp [ih]

/-- Renumbering one test leaves the questions of every other test
untouched. -/
theorem renumberTest_filter_ne (tid : String) (qs : List AQuestion) :
    ∀ n, (renumberTest tid n qs).filter (fun q => q.test_id != tid) =
      qs.filter (fun q => q.test_id != tid) := by
  induction qs with
  | nil => intro n; rfl
  | cons q rest ih =>
    intro n
    unfold renumberTest
    by_cases h : q.test_id == tid
    · rw [if_pos h]
      have hne : (q.test_id != tid) = false := by simp [bne, h]
      simp [List.filter_cons, hne, ih]
    · rw [if_neg h]
      have h' : (q.test_id == tid) = false := by simpa using h
      have hne : (q.test_id != tid) = true := by simp [bne, h']
      simp [List.filter_cons, hne, ih]

/-- After renumbering, the questions of the renumbered test carry the
consecutive numbers `n+1, n+2, ...` in stored order. -/
theorem renumberTest_numbers (tid : String) (qs : List AQuestion) :
    ∀ n, ((renumberTest tid n qs).filter (fun q => q.test_id == tid)).map
        (fun q => q.question_number) =
      List.range' (n + 1) ((qs.filter (fun q => q.test_id == tid)).length) := by
  induction qs with
  | nil => intro n; rfl
  | cons q rest ih =>
    intro n
    unfold renumberTest
    by_cases h : q.test_id == tid
    · rw [if_pos h]
      simp only [List.filter_cons, h, if_pos, List.length_cons, List.map_cons]
      rw [List.range'_succ, ih]
    · rw [if_neg h]
      have h' : (q.test_id == tid) = false := by simpa using h
      simp [List.filter_cons, h', ih]

/-- `updateTest(id, {total_questions: n})` seen through the lookup of
the same test id. -/
theorem updateTestTotal_find_eq (tid : String) (n : Nat) (tests : List ATest) :
    (updateTestTotal tid n tests).find? (fun t => t.id == tid) =
      (tests.find? (fun t => t.id == tid)).map
        (fun t => { t with total_questions := n }) := by
  induction tests with
  | nil => rfl
  | cons t rest ih =>
    unfold updateTestTotal
    by_cases h : t.id == tid
    · rw [if_pos h]
      rw [@List.find?_cons_of_pos _ (fun t => t.id == tid) { t with total_questions := n } rest h,
        @List.find?_cons_of_pos _ (fun t => t.id == tid) t rest h]
      rfl
    · rw [if_neg h]
      rw [@List.find?_cons_of_neg _ (fun t => t.id == tid) t (updateTestTotal tid n rest) h,
        @List.find?_cons_of_neg _ (fun t => t.id == tid) t rest h]
      exact ih

/-- Removing the first question whose id matches leaves the questions
of every other test untouched, since the removed question belongs to
the test of the found record. -/
theorem removeQuestion_filter_ne (qid : String) (qs : List AQuestion) (q0 : AQuestion)
    (h : qs.find? (fun q => q.id == qid) = some q0) :
    (removeQuestion qs qid).filter (fun q => q.test_id != q0.test_id) =
      qs.filter (fun q => q.test_id != q0.test_id) := by
  induction qs with
  | nil => simp at h
  | cons q rest ih =>
    unfold removeQuestion
    by_cases hq : q.id == qid
    · rw [if_pos hq]
      rw [@List.find?_cons_of_pos _ (fun q => q.id == qid) q rest hq] at h
      injection h with h
      subst h
      have hfalse : (q.test_id != q.test_id) = false := by simp
      simp [List.filter_cons, hfalse]
    · rw [if_neg hq]
      rw [@List.find?_cons_of_neg _ (fun q => q.id == qid) q rest hq] at h
      simp [List.filter_cons, ih h]

/-- C1: for every state in which a question with the given id exists
(and whose parent test record exists), `deleteQuestion` removes
exactly that question, renumbers the remaining questions of the same
test in stored order to the contiguous sequence `1..N`
(`N` = remaining count), leaves other tests' questions untouched, and
sets the parent test's `total_questions` to `N`. -/
theorem deleteQuestion_renumbers (st : AdminState) (qid : String)
    (q0 : AQuestion) (t0 : ATest)
    (h : st.questions.find? (fun q => q.id == qid) = some q0)
    (ht : st.mockTests.find? (fun t => t.id == q0.test_id) = some t0) :
    (deleteQuestion st qid).2 = true
    ∧ ((deleteQuestion st qid).1.questions.map (fun q => (q.id, q.test_id))
        = (removeQuestion st.questions qid).map (fun q => (q.id, q.test_id)))
    ∧ ((deleteQuestion st qid).1.questions.filter (fun q => q.test_id != q0.test_id)
        = st.questions.filter (fun q => q.test_id != q0.test_id))
    ∧ (((deleteQuestion st qid).1.questions.filter (fun q => q.test_id == q0.test_id)).map
          (fun q => q.question_number)
        = List.range' 1
            ((removeQuestion st.questions qid).filter
              (fun q => q.test_id == q0.test_id)).length)
    ∧ ((deleteQuestion st qid).1.mockTests.find? (fun t => t.id == q0.test_id)
        = some { t0 with total_questions :=
            ((removeQuestion st.questions qid).filter
              (fun q => q.test_id == q0.test_id)).length }) := by
  unfold deleteQuestion
  rw [h]
  dsimp only
  refine ⟨rfl, ?_, ?_, ?_, ?_⟩
  · exact renumberTest_map_ids q0.test_id (removeQuestion st.questions qid) 0
  · rw [renumberTest_filter_ne q0.test_id (removeQuestion st.questions qid) 0]
    exact removeQuestion_filter_ne qid st.questions q0 h
  · exact renumberTest_numbers q0.test_id (removeQuestion st.questions qid) 0
  · rw [updateTestTotal_find_eq q0.test_id _ st.mockTests, ht]
    rfl

/-- C1 witness: deleting `q2` from a three-question test renumbers the
two remaining questions to 1, 2 and sets the test's
`total_questions` to 2. -/
theorem deleteQuestion_renumbers_witness :
    ((deleteQuestion
        ⟨[⟨"t1", 3⟩],
         [⟨"q1", "t1", 1⟩, ⟨"q2", "t1", 2⟩, ⟨"q3", "t1", 3⟩, ⟨"x1", "t2", 1⟩]⟩
        "q2").1.questions.filter (fun q => q.test_id == "t1")).map
        (fun q => q.question_number)
      = List.range' 1
          ((removeQuestion
              [⟨"q1", "t1", 1⟩, ⟨"q2", "t1", 2⟩, ⟨"q3", "t1", 3⟩, ⟨"x1", "t2", 1⟩]
              "q2").filter (fun q => q.test_id == "t1")).length :=
  (deleteQuestion_renumbers
    ⟨[⟨"t1", 3⟩], [⟨"q1", "t1", 1⟩, ⟨"q2", "t1", 2⟩, ⟨"q3", "t1", 3⟩, ⟨"x1", "t2", 1⟩]⟩
    "q2" ⟨"q2", "t1", 2⟩ ⟨"t1", 3⟩ (by decide) (by decide)).2.2.2.1

/-- Writing an option field leaves the question number unchanged. -/
theorem setOpt_number (q : Quest) (l : Char) (v : List Char) :
    (setOpt q l v).number = q.number := by
  unfold setOpt
  split
  · rfl
  · split
    · rfl
    · split
      · rfl
      · rfl

/-- The loop invariant of `_extractLineByLine` after `k` processed
lines: the sequential counter is bounded by the number of processed
lines, the numbers already pushed are at least 1, strictly increasing
in push order and below the counter, and the current draft carries
exactly the counter value. -/
def LblInv (st : LblState) (k : Nat) : Prop :=
  st.qNumber ≤ k
  ∧ (∀ q ∈ st.acc, 1 ≤ q.number ∧ q.number < st.qNumber)
  ∧ ((st.acc.map (fun q => q.number)).Pairwise (· < ·))
  ∧ (∀ q, st.cur = some q → q.number = st.qNumber ∧ 1 ≤ st.qNumber)

/-- The invariant is monotone in the processed-line bound. -/
theorem LblInv_mono {st : LblState} {k k' : Nat} (h : LblInv st k) (hk : k ≤ k') :
    LblInv st k' :=
  ⟨le_trans h.1 hk, h.2.1, h.2.2.1, h.2.2.2⟩

/-- Packaging lemma for the invariant at a literal state. -/
theorem LblInv_mk {c : Option Quest} {qn : Nat} {acc : List Quest} {k : Nat}
    (h1 : qn ≤ k)
    (h2 : ∀ q ∈ acc, 1 ≤ q.number ∧ q.number < qn)
    (h3 : (acc.map (fun q => q.number)).Pairwise (· < ·))
    (h4 : ∀ q, c = some q → q.number = qn ∧ 1 ≤ qn) :
    LblInv ⟨c, qn, acc⟩ k :=
  ⟨h1, h2, h3, h4⟩

/-- A step that only rewrites the current draft (without changing its
number) preserves the invariant. -/
theorem LblInv_updateCur {st : LblState} {k : Nat} (h : LblInv st k)
    (q q' : Quest) (hc : st.cur = some q) (hn : q'.number = q.number) :
    LblInv ⟨some q', st.qNumber, st.acc⟩ (k + 1) := by
  obtain ⟨hqn, hacc, hpw, hcur⟩ := h
  refine LblInv_mk (by omega) hacc hpw ?_
  intro q'' hq''
  injection hq'' with hq''
  subst hq''
  have hcq := hcur q hc
  exact ⟨by rw [hn, hcq.1], hcq.2⟩

/-- Everything pushed by `lblPush` respects the number bounds. -/
theorem lblPush_bounds {cur : Option Quest} {acc : List Quest} {qn : Nat}
    (hacc : ∀ q ∈ acc, 1 ≤ q.number ∧ q.number < qn)
    (hcur : ∀ q, cur = some q → q.number = qn ∧ 1 ≤ qn) :
    ∀ q ∈ lblPush cur acc, 1 ≤ q.number ∧ q.number ≤ qn := by
  intro q hq
  cases cur with
  | none =>
    have hq' : q ∈ acc := by simpa [lblPush] using hq
    exact ⟨(hacc q hq').1, le_of_lt (hacc q hq').2⟩
  | some c =>
    have hcq := hcur c rfl
    by_cases hlen : 10 < c.question.length
    · have hq' : q ∈ acc ++ [c] := by simpa [lblPush, hlen] using hq
      rcases List.mem_append.mp hq' with h1 | h2
      · exact ⟨(hacc q h1).1, le_of_lt (hacc q h1).2⟩
      · have hqc : q = c := by simpa using h2
        subst hqc
        exact ⟨by rw [hcq.1]; exact hcq.2, le_of_eq hcq.1⟩
    · have hq' : q ∈ acc := by simpa [lblPush, hlen] using hq
      exact ⟨(hacc q hq').1, le_of_lt (hacc q hq').2⟩

/-- The numbers in the pushed list are strictly increasing. -/
theorem lblPush_pairwise {cur : Option Quest} {acc : List Quest} {qn : Nat}
    (hacc : ∀ q ∈ acc, q.number < qn)
    (hpw : (acc.map (fun q => q.number)).Pairwise (· < ·))
    (hcur : ∀ q, cur = some q → q.number = qn) :
    ((lblPush cur acc).map (fun q => q.number)).Pairwise (· < ·) := by
  cases cur with
  | none => simpa [lblPush] using hpw
  | some c =>
    by_cases hlen : 10 < c.question.length
    · have he : lblPush (some c) acc = acc ++ [c] := by simp [lblPush, hlen]
      rw [he, List.map_append, List.pairwise_append]
      refine ⟨hpw, by simp, ?_⟩
      intro a ha b hb
      have hb' : b = c.number := by simpa using hb
      subst hb'
      rcases List.mem_map.mp ha with ⟨q, hq, rfl⟩
      rw [hcur c rfl]
      exact hacc q hq
    · have he : lblPush (some c) acc = acc := by simp [lblPush, hlen]
      rw [he]
      exact hpw

/-- One line of `_extractLineByLine` preserves the invariant. -/
theorem lblStep_inv {st : LblState} {k : Nat} (line : List Char) (h : LblInv st k) :
    LblInv (lblStep st line) (k + 1) := by
  obtain ⟨hqn, hacc, hpw, hcur⟩ := h
  unfold lblStep
  by_cases ht : jsTrim line = []
  · rw [if_pos ht]
    exact LblInv_mono ⟨hqn, hacc, hpw, hcur⟩ (by omega)
  · rw [if_neg ht]
    dsimp only
    cases hnm : numLineMatch (jsTrim line) with
    | some p =>
      obtain ⟨digits, body⟩ := p
      dsimp only
      by_cases hg : parseIntDigits digits = st.qNumber + 1
      · rw [if_pos hg]
        dsimp only
        rw [hg]
        refine LblInv_mk (by omega) ?_ ?_ ?_
        · intro q hq
          have hb := lblPush_bounds hacc hcur q hq
          exact ⟨hb.1, Nat.lt_succ_of_le hb.2⟩
        · exact lblPush_pairwise (fun q hq => (hacc q hq).2) hpw
            (fun q hq => (hcur q hq).1)
        · intro q hq
          injection hq with hq
          subst hq
          exact ⟨rfl, by omega⟩
      · rw [if_neg hg]
        dsimp only
        cases hc : st.cur with
        | none =>
          dsimp only
          exact LblInv_mono ⟨hqn, hacc, hpw, hcur⟩ (by omega)
        | some q =>
          dsimp only
          cases hopt : optMatch (jsTrim line) with
          | some p' =>
            obtain ⟨l, txt⟩ := p'
            exact LblInv_updateCur ⟨hqn, hacc, hpw, hcur⟩ q _ hc
              (setOpt_number q l (jsTrim txt))
          | none =>
            dsimp only
            cases hans : ansScan ansKwsLines (jsTrim line) with
            | some l =>
              exact LblInv_updateCur ⟨hqn, hacc, hpw, hcur⟩ q _ hc rfl
            | none =>
              dsimp only
              by_cases hfb : q.optA = [] ∧ 3 < (jsTrim line).length
              · rw [if_pos hfb]
                exact LblInv_updateCur ⟨hqn, hacc, hpw, hcur⟩ q _ hc rfl
              · rw [if_neg hfb]
                exact LblInv_mono ⟨hqn, hacc, hpw, hcur⟩ (by omega)
    | none =>
      dsimp only
      cases hc : st.cur with
      | none =>
        dsimp only
        exact LblInv_mono ⟨hqn, hacc, hpw, hcur⟩ (by omega)
      | some q =>
        dsimp only
        cases hopt : optMatch (jsTrim line) with
        | some p' =>
          obtain ⟨l, txt⟩ := p'
          exact LblInv_updateCur ⟨hqn, hacc, hpw, hcur⟩ q _ hc
            (setOpt_number q l (jsTrim txt))
        | none =>
          dsimp only
          cases hans : ansScan ansKwsLines (jsTrim line) with
          | some l =>
            exact LblInv_updateCur ⟨hqn, hacc, hpw, hcur⟩ q _ hc rfl
          | none =>
            dsimp only
            by_cases hfb : q.optA = [] ∧ 3 < (jsTrim line).length
            · rw [if_pos hfb]
              exact LblInv_updateCur ⟨hqn, hacc, hpw, hcur⟩ q _ hc rfl
            · rw [if_neg hfb]
              exact LblInv_mono ⟨hqn, hacc, hpw, hcur⟩ (by omega)

/-- The invariant propagates through the whole line loop. -/
theorem foldl_lblStep_inv (lines : List (List Char)) :
    ∀ (st : LblState) (k : Nat), LblInv st k →
      LblInv (lines.foldl lblStep st) (k + lines.length) := by
  induction lines with
  | nil => intro st k h; simpa using h
  | cons l ls ih =>
    intro st k h
    simp only [List.foldl_cons, List.length_cons]
    have h2 := ih (lblStep st l) (k + 1) (lblStep_inv l h)
    have he : k + 1 + ls.length = k + (ls.length + 1) := by omega
    rw [he] at h2
    exact h2

/-- C7: in the strict sequential line-scan, a line starts a new
question only when its leading number is the previous accepted number
plus 1 (starting from 1): the output numbers are strictly increasing,
at least 1, and never exceed the number of input lines.  Concretely,
the line `"1947. the event was historic"` does match the
question-start regex, yet on the example input the scan yields only
question 1 - nothing numbered 1947. -/
theorem extractLineByLine_sequential (text : List Char) :
    ((extractLineByLine text).map (fun q => q.number)).Pairwise (· < ·)
    ∧ (∀ q ∈ extractLineByLine text,
        1 ≤ q.number ∧ q.number ≤ (splitNl text).length)
    ∧ numLineMatch (jsTrim "1947. the event was historic".data) ≠ none
    ∧ (extractLineByLine
        "1. Who led the movement\n1947. the event was historic\na) Gandhi\nb) Nehru\nAnswer: a".data).map
          (fun q => q.number) = [1] := by
  have h0 : LblInv ⟨none, 0, []⟩ 0 := by
    refine ⟨le_refl 0, ?_, ?_, ?_⟩
    · intro q hq; simp at hq
    · simp
    · intro q hq; simp at hq
  have hf := foldl_lblStep_inv (splitNl text) ⟨none, 0, []⟩ 0 h0
  obtain ⟨hqn, hacc, hpw, hcur⟩ := hf
  refine ⟨?_, ?_, by decide, by decide⟩
  · unfold extractLineByLine
    exact lblPush_pairwise (fun q hq => (hacc q hq).2) hpw (fun q hq => (hcur q hq).1)
  · unfold extractLineByLine
    intro q hq
    have hb := lblPush_bounds hacc hcur q hq
    exact ⟨hb.1, le_trans hb.2 (by simpa using hqn)⟩

/-- C7 witness: the general bounds applied to the concrete example. -/
theorem extractLineByLine_sequential_witness :
    ((extractLineByLine
        "1. Who led the movement\n1947. the event was historic\na) Gandhi\nb) Nehru\nAnswer: a".data).map
          (fun q => q.number)).Pairwise (· < ·)
    ∧ (1 ≤ (⟨1, "Who led the movement 1947. the event was historic".data,
          "Gandhi".data, "Nehru".data, [], [], ['a'], []⟩ : Quest).number
        ∧ (⟨1, "Who led the movement 1947. the event was historic".data,
            "Gandhi".data, "Nehru".data, [], [], ['a'], []⟩ : Quest).number
          ≤ (splitNl
              "1. Who led the movement\n1947. the event was historic\na) Gandhi\nb) Nehru\nAnswer: a".data).length)
    ∧ (extractLineByLine
        "1. Who led the movement\n1947. the event was historic\na) Gandhi\nb) Nehru\nAnswer: a".data).map
          (fun q => q.number) = [1] :=
  ⟨(extractLineByLine_sequential
      "1. Who led the movement\n1947. the event was historic\na) Gandhi\nb) Nehru\nAnswer: a".data).1,
   (extractLineByLine_sequential
      "1. Who led the movement\n1947. the event was historic\na) Gandhi\nb) Nehru\nAnswer: a".data).2.1
      _ (by decide),
   (extractLineByLine_sequential ([] : List Char)).2.2.2⟩

/-- A list whose head is not whitespace is unchanged by a leading
whitespace strip. -/
theorem dropWhile_eq_self_of_head {l : List Char} {c : Char}
    (h : l.head? = some c) (hc : jsWs c = false) : l.dropWhile jsWs = l := by
  cases l with
  | nil => simp at h
  | cons x xs =>
    injection h with h
    subst h
    simp [List.dropWhile_cons, hc]

/-- `trim` is the identity when neither end is whitespace. -/
theorem jsTrim_eq_self {l : List Char} {c c' : Char}
    (h1 : l.head? = some c) (hc1 : jsWs c = false)
    (h2 : l.getLast? = some c') (hc2 : jsWs c' = false) : jsTrim l = l := by
  unfold jsTrim
  rw [dropWhile_eq_self_of_head h1 hc1]
  rw [dropWhile_eq_self_of_head (by rw [List.head?_reverse]; exact h2) hc2]
  exact List.reverse_reverse l

/-- `indexOf` at a matching head. -/
theorem firstIdx_head {c : Char} {l : List Char} (h : l.head? = some c) :
    firstIdx c l = some 0 := by
  cases l with
  | nil => simp at h
  | cons x xs =>
    injection h with h
    subst h
    simp [firstIdx]

/-- `indexOf` skips over a prefix that does not contain the
character. -/
theorem firstIdx_append_none {c : Char} {l1 : List Char} (l2 : List Char)
    (h : firstIdx c l1 = none) :
    firstIdx c (l1 ++ l2) = (firstIdx c l2).map (· + l1.length) := by
  induction l1 with
  | nil =>
    show firstIdx c l2 = (firstIdx c l2).map (· + ([] : List Char).length)
    cases firstIdx c l2 with
    | none => rfl
    | some a => simp
  | cons x xs ih =>
    have hx : x ≠ c := by
      intro hcon
      rw [show firstIdx c (x :: xs) = some 0 from by simp [firstIdx, hcon]] at h
      exact Option.noConfusion h
    have hstep : ∀ l : List Char, firstIdx c (x :: l) = (firstIdx c l).map (· + 1) := by
      intro l
      simp [firstIdx, hx]
    have h' : firstIdx c xs = none := by
      rw [hstep] at h
      cases hxx : firstIdx c xs with
      | none => rfl
      | some a => rw [hxx] at h; simp at h
    rw [List.cons_append, hstep, ih h']
    cases firstIdx c l2 with
    | none => rfl
    | some a =>
      simp only [Option.map_some', List.length_cons, Option.some.injEq]
      omega

/-- The bracket window is the identity on a string that starts with
`[` and ends with `]`. -/
theorem bracketWindow_of_bracketed {s : List Char}
    (h1 : s.head? = some '[') (h2 : s.getLast? = some ']') (h3 : 2 ≤ s.length) :
    bracketWindow s = s := by
  have hf : firstIdx '[' s = some 0 := firstIdx_head h1
  have hl : lastIdx ']' s = some (s.length - 1) := by
    unfold lastIdx
    rw [firstIdx_head (by rw [List.head?_reverse]; exact h2)]
    rfl
  unfold bracketWindow
  rw [hf, hl]
  show (if 0 < s.length - 1 then List.take (s.length - 1 + 1 - 0) (List.drop 0 s)
    else s) = s
  rw [if_pos (by omega), List.drop_zero,
    show s.length - 1 + 1 - 0 = s.length from by omega, List.take_length]

/-- The bracket window recovers the array text from a fenced reply. -/
theorem bracketWindow_of_wrapped {s : List Char}
    (h1 : s.head? = some '[') (h2 : s.getLast? = some ']') (h3 : 2 ≤ s.length) :
    bracketWindow ("```json\n".data ++ (s ++ "\n```".data)) = s := by
  have hfst : firstIdx '[' ("```json\n".data ++ (s ++ "\n```".data)) = some 8 := by
    rw [firstIdx_append_none _ (by decide)]
    rw [firstIdx_head (by rw [List.head?_append, h1]; rfl)]
    rfl
  have hrev : ("```json\n".data ++ (s ++ "\n```".data)).reverse
      = "\n```".data.reverse ++ (s.reverse ++ "```json\n".data.reverse) := by
    rw [List.reverse_append, List.reverse_append, List.append_assoc]
  have hlst : lastIdx ']' ("```json\n".data ++ (s ++ "\n```".data))
      = some (s.length + 7) := by
    unfold lastIdx
    rw [hrev]
    rw [firstIdx_append_none _ (by decide)]
    rw [firstIdx_head (by rw [List.head?_append, List.head?_reverse, h2]; rfl)]
    have hlen : ("```json\n".data ++ (s ++ "\n```".data)).length = s.length + 12 := by
      rw [List.length_append, List.length_append,
        show ("```json\n".data).length = 8 from by decide,
        show ("\n```".data).length = 4 from by decide]
      omega
    rw [show ("\n```".data.reverse).length = 4 from by decide]
    simp only [Option.map_some', Option.some.injEq, hlen]
    omega
  unfold bracketWindow
  rw [hfst, hlst]
  show (if 8 < s.length + 7 then
      List.take (s.length + 7 + 1 - 8)
        (List.drop 8 ("```json\n".data ++ (s ++ "\n```".data)))
    else ("```json\n".data ++ (s ++ "\n```".data))) = s
  rw [if_pos (by omega)]
  rw [show (8 : Nat) = ("```json\n".data).length from by decide, List.drop_left]
  rw [show s.length + 7 + 1 - ("```json\n".data).length = s.length from by
    rw [show ("```json\n".data).length = 8 from by decide]; omega]
  exact List.take_left s "\n```".data

/-- C8: `parseJsonResponse` maps a reply consisting of a JSON array
wrapped in fenced code markers to exactly the same result as the
identical array given unwrapped (whatever `JSON.parse` makes of it);
it accepts an object carrying a `questions` array as well as a bare
array; and a reply whose cleaned text does not parse is a hard
failure. -/
theorem parseJsonResponse_shapes (parse : List Char → Option JVal)
    (s content content2 : List Char) (v : JVal)
    (h1 : s.head? = some '[') (h2 : s.getLast? = some ']') (h3 : 2 ≤ s.length)
    (h4 : parse (cleanupReply content) = some v)
    (h5 : parse (cleanupReply content2) = none) :
    parseJsonResponse parse ("```json\n".data ++ (s ++ "\n```".data))
        = parseJsonResponse parse s
    ∧ ((∃ qs, parseJsonResponse parse content = .ok qs) ↔
        ((∃ fields qs, v = .jobj fields ∧ lookupQuestions fields = some (.jarr qs))
          ∨ (∃ qs, v = .jarr qs)))
    ∧ parseJsonResponse parse content2 = .error "Failed to parse AI response as JSON" := by
  have hsufne : ("\n```".data : List Char) ≠ [] := by decide
  have hconcatne : (s ++ "\n```".data : List Char) ≠ [] := by
    intro hcon
    exact hsufne (List.append_eq_nil.mp hcon).2
  have hwlast : ("```json\n".data ++ (s ++ "\n```".data)).getLast? = some '`' := by
    rw [List.getLast?_append_of_ne_nil _ hconcatne,
      List.getLast?_append_of_ne_nil _ hsufne]
    rfl
  have htw : jsTrim ("```json\n".data ++ (s ++ "\n```".data))
      = "```json\n".data ++ (s ++ "\n```".data) :=
    jsTrim_eq_self rfl (by decide) hwlast (by decide)
  have hts : jsTrim s = s := jsTrim_eq_self h1 (by decide) h2 (by decide)
  have hcleanup : cleanupReply ("```json\n".data ++ (s ++ "\n```".data))
      = cleanupReply s := by
    unfold cleanupReply
    rw [htw, hts, bracketWindow_of_wrapped h1 h2 h3,
      bracketWindow_of_bracketed h1 h2 h3]
  refine ⟨?_, ?_, ?_⟩
  · unfold parseJsonResponse
    rw [hcleanup]
  · unfold parseJsonResponse
    rw [h4]
    cases v with
    | jnull => simp
    | jbool b => simp
    | jnum n => simp
    | jstr t => simp
    | jarr qs =>
      simp only
      constructor
      · intro _; exact Or.inr ⟨qs, rfl⟩
      · intro _; exact ⟨qs, rfl⟩
    | jobj fields =>
      simp only
      cases hlq : lookupQuestions fields with
      | some w =>
        cases w with
        | jarr qs =>
          constructor
          · intro _; exact Or.inl ⟨fields, qs, rfl, hlq⟩
          · intro _; exact ⟨qs, rfl⟩
        | jnull =>
          constructor
          · rintro ⟨qs, hqs⟩; simp at hqs
          · rintro (⟨fields', qs, hf, hq⟩ | ⟨qs, hq⟩)
            · injection hf with hf; subst hf; rw [hlq] at hq; simp at hq
            · simp at hq
        | jbool b =>
          constructor
          · rintro ⟨qs, hqs⟩; simp at hqs
          · rintro (⟨fields', qs, hf, hq⟩ | ⟨qs, hq⟩)
            · injection hf with hf; subst hf; rw [hlq] at hq; simp at hq
            · simp at hq
        | jnum n =>
          constructor
          · rintro ⟨qs, hqs⟩; simp at hqs
          · rintro (⟨fields', qs, hf, hq⟩ | ⟨qs, hq⟩)
            · injection hf with hf; subst hf; rw [hlq] at hq; simp at hq
            · simp at hq
        | jstr t =>
          constructor
          · rintro ⟨qs, hqs⟩; simp at hqs
          · rintro (⟨fields', qs, hf, hq⟩ | ⟨qs, hq⟩)
            · injection hf with hf; subst hf; rw [hlq] at hq; simp at hq
            · simp at hq
        | jobj fs =>
          constructor
          · rintro ⟨qs, hqs⟩; simp at hqs
          · rintro (⟨fields', qs, hf, hq⟩ | ⟨qs, hq⟩)
            · injection hf with hf; subst hf; rw [hlq] at hq; simp at hq
            · simp at hq
      | none =>
        constructor
        · rintro ⟨qs, hqs⟩; simp at hqs
        · rintro (⟨fields', qs, hf, hq⟩ | ⟨qs, hq⟩)
          · injection hf with hf; subst hf; rw [hlq] at hq; simp at hq
          · simp at hq
  · unfold parseJsonResponse
    rw [h5]

/-- C8 witness: a concrete parse function, the two-element text
`"[]"`, and a non-JSON reply. -/
theorem parseJsonResponse_shapes_witness :
    parseJsonResponse
        (fun cs => if cs == "[]".data then some (JVal.jarr []) else none)
        ("```json\n".data ++ ("[]".data ++ "\n```".data))
      = parseJsonResponse
          (fun cs => if cs == "[]".data then some (JVal.jarr []) else none) "[]".data
    ∧ ((∃ qs, parseJsonResponse
          (fun cs => if cs == "[]".data then some (JVal.jarr []) else none) "[]".data
            = .ok qs) ↔
        ((∃ fields qs, JVal.jarr [] = .jobj fields
            ∧ lookupQuestions fields = some (.jarr qs))
          ∨ (∃ qs, JVal.jarr [] = JVal.jarr qs)))
    ∧ parseJsonResponse
        (fun cs => if cs == "[]".data then some (JVal.jarr []) else none) "xyz".data
      = .error "Failed to parse AI response as JSON" :=
  parseJsonResponse_shapes
    (fun cs => if cs == "[]".data then some (JVal.jarr []) else none)
    "[]".data "[]".data "xyz".data (JVal.jarr [])
    (by rfl) (by rfl) (by decide) (by rfl) (by rfl)

end GenZMock
